import Mathlib

/-!
Verification of the engine layer of the pr-helper repository.

The development shallowly embeds the Python sources of `src/engines/` into
Lean. Strings are modelled as `List Char` (the Python code is line oriented
and the embedding needs kernel-computable definitions); Python string
whitespace is modelled by its ASCII part.
-/

namespace PRHelper

/-- A line of text: a list of characters containing no newline. -/
abbrev Line := List Char

/-- The opening brace character, written via its code point. -/
def obr : Char := '\x7b'

/-- The closing brace character, written via its code point. -/
def cbr : Char := '\x7d'

/-- Whitespace as recognised by Python `str.strip()` with no argument,
restricted to ASCII (space, tab, newline, carriage return, vertical tab,
form feed).  Unicode whitespace is outside the modelled fragment. -/
def pyIsSpace (c : Char) : Bool :=
  c = ' ' || c = '\t' || c = '\n' || c = '\r' || c = '\x0b' || c = '\x0c'

/-- Remove leading Python whitespace, the left half of `str.strip()`. -/
def ltrimL (s : List Char) : List Char := s.dropWhile pyIsSpace

/-- Remove trailing Python whitespace, the right half of `str.strip()`. -/
def rtrimL (s : List Char) : List Char := (ltrimL s.reverse).reverse

/-- Python `str.strip()` with no argument (ASCII fragment). -/
def pyStripList (s : List Char) : List Char := rtrimL (ltrimL s)

/-- Python `s.split("\n")`: split a string at every newline.  The result is
never empty, and splitting the empty string yields one empty line, exactly
as in Python. -/
def splitLines : List Char → List Line
  | [] => [[]]
  | c :: rest =>
    if c = '\n' then [] :: splitLines rest
    else
      match splitLines rest with
      | [] => [[c]]
      | l :: ls => (c :: l) :: ls

/-- Python `"\n".join(lines)`: interleave the lines with newlines. -/
def joinLines : List Line → List Char
  | [] => []
  | l :: ls =>
    match ls with
    | [] => l
    | _ :: _ => l ++ '\n' :: joinLines ls

/-- Boolean prefix test on character lists (`str.startswith`). -/
def startsWithL : List Char → List Char → Bool
  | [], _ => true
  | _ :: _, [] => false
  | p :: ps, c :: cs => p = c && startsWithL ps cs

/-- Boolean substring test on character lists (Python `in` on strings). -/
def containsL (pat : List Char) : List Char → Bool
  | [] => startsWithL pat []
  | c :: rest => startsWithL pat (c :: rest) || containsL pat rest

/-!
## The transcript parser of `src/engines/openai_codex_cli.py`

`_parse_codex_output` walks the timestamped event log emitted by the Codex
CLI and extracts the response content, then applies a heading heuristic.
-/

/-- The timestamp header test of `_parse_codex_output`
(`re.match` against the anchored pattern for a bracketed ISO-8601 second
timestamp followed by optional whitespace and a tag).  On a match it
returns the stripped tag content, `tag_content` in the source; `\d` is
modelled by the ASCII digit test. -/
def timestampTag (line : Line) : Option (List Char) :=
  match line with
  | '[' :: y1 :: y2 :: y3 :: y4 :: '-' :: mo1 :: mo2 :: '-' :: d1 :: d2 :: 'T' ::
      h1 :: h2 :: ':' :: mi1 :: mi2 :: ':' :: s1 :: s2 :: ']' :: rest =>
    if y1.isDigit && y2.isDigit && y3.isDigit && y4.isDigit &&
        mo1.isDigit && mo2.isDigit && d1.isDigit && d2.isDigit &&
        h1.isDigit && h2.isDigit && mi1.isDigit && mi2.isDigit &&
        s1.isDigit && s2.isDigit then
      some (pyStripList rest)
    else none
  | _ => none

/-- The tag prefixes that end response capture: thinking, exec, usage
footer, session header, user instructions. -/
def isEndTag (tag : List Char) : Bool :=
  startsWithL "thinking".data tag || startsWithL "exec ".data tag ||
  startsWithL "tokens used:".data tag || startsWithL "OpenAI Codex".data tag ||
  startsWithL "User instructions".data tag

/-- Command result tags: the tag contains a success or failure marker. -/
def isCmdResultTag (tag : List Char) : Bool :=
  containsL " succeeded".data tag || containsL " failed".data tag

/-- The non-content header lines skipped regardless of state
(workdir, model, provider, approval, sandbox, reasoning declarations). -/
def isInfoHeader (line : Line) : Bool :=
  startsWithL "workdir:".data line || startsWithL "model:".data line ||
  startsWithL "provider:".data line || startsWithL "approval:".data line ||
  startsWithL "sandbox:".data line || startsWithL "reasoning:".data line

/-- Shell reset notices skipped regardless of state. -/
def isShellReset (line : Line) : Bool :=
  startsWithL "Shell cwd was reset".data line

/-- The horizontal rule token skipped regardless of state. -/
def isRuleLine (line : Line) : Bool :=
  pyStripList line = "--------".data

/-- The capture loop of `_parse_codex_output`: walk the lines with the
`in_response` flag, returning the captured lines in order.  The branch
order mirrors the source: timestamp headers first (codex marker, capture
ending tags, command result tags, other timestamps), then the skip
patterns, then capture when in the response section. -/
def parseLinesLoop : List Line → Bool → List Line
  | [], _ => []
  | line :: rest, inResp =>
    match timestampTag line with
    | some tag =>
      if tag = "codex".data then parseLinesLoop rest true
      else if isEndTag tag then parseLinesLoop rest false
      else if isCmdResultTag tag then parseLinesLoop rest false
      else parseLinesLoop rest inResp
    | none =>
      if isInfoHeader line then parseLinesLoop rest inResp
      else if isRuleLine line then parseLinesLoop rest inResp
      else if isShellReset line then parseLinesLoop rest inResp
      else if inResp then line :: parseLinesLoop rest true
      else parseLinesLoop rest false

/-- A markdown heading line in the sense of the post-processing regex
searched with MULTILINE: a line starting with a hash and a space followed
by at least one character. -/
def isHeadingLine (l : Line) : Bool :=
  match l with
  | '#' :: ' ' :: _ :: _ => true
  | _ => false

/-- Drop lines up to the first markdown heading line, returning the
heading line and everything after it, or nothing when no line is a
heading.  This models `re.search` of the heading pattern over the buffer
and taking the text from the match start onward. -/
def dropToHeading : List Line → Option (List Line)
  | [] => none
  | l :: rest => if isHeadingLine l then some (l :: rest) else dropToHeading rest

/-- The assembled capture buffer of `_parse_codex_output`:
`"\n".join(response_lines).strip()` computed over the stripped and split
input. -/
def capturedBuffer (output : List Char) : List Char :=
  pyStripList (joinLines (parseLinesLoop (splitLines (pyStripList output)) false))

/-- The post-processing step of `_parse_codex_output`: when the buffer is
non-empty and does not start with a hash, cut the buffer at the first
markdown heading line when one exists. -/
def postProcess (result : List Char) : List Char :=
  match result with
  | [] => []
  | c :: _ =>
    if c = '#' then result
    else
      match dropToHeading (splitLines result) with
      | some ls => joinLines ls
      | none => result

/-- `OpenAICodexCLIEngine._parse_codex_output`, the transcript parser. -/
def parse_codex_output (output : List Char) : List Char :=
  postProcess (capturedBuffer output)

/-- A line that passes every skip test of the capture loop: not a
timestamp header, not an info header, not a horizontal rule, not a shell
reset notice.  Exactly these lines are ever captured. -/
def capturableLine (l : Line) : Bool :=
  (timestampTag l).isNone && !isInfoHeader l && !isRuleLine l && !isShellReset l

/-!
## Split and join lemmas
-/

theorem splitLines_ne_nil (s : List Char) : splitLines s ≠ [] := by
  induction s with
  | nil => simp [splitLines]
  | cons c rest ih =>
    simp only [splitLines]
    split
    · simp
    · cases h : splitLines rest with
      | nil => simp
      | cons l ls => simp

theorem noNL_splitLines (s : List Char) : ∀ l ∈ splitLines s, '\n' ∉ l := by
  induction s with
  | nil =>
    intro l hl
    simp only [splitLines, List.mem_singleton] at hl
    simp [hl]
  | cons c rest ih =>
    intro l hl
    simp only [splitLines] at hl
    by_cases hc : c = '\n'
    · rw [if_pos hc] at hl
      rcases List.mem_cons.mp hl with h | h
      · simp [h]
      · exact ih l h
    · rw [if_neg hc] at hl
      rcases hsp : splitLines rest with _ | ⟨m, ms⟩
      · exact absurd hsp (splitLines_ne_nil rest)
      · rw [hsp] at hl
        rcases List.mem_cons.mp hl with h | h
        · subst h
          intro hmem
          rcases List.mem_cons.mp hmem with h2 | h2
          · exact hc h2.symm
          · exact ih m (hsp ▸ List.mem_cons_self m ms) h2
        · exact ih l (hsp ▸ List.mem_cons_of_mem m h)

theorem splitLines_of_noNL (s : List Char) (h : '\n' ∉ s) : splitLines s = [s] := by
  induction s with
  | nil => simp [splitLines]
  | cons c rest ih =>
    have hc : c ≠ '\n' := fun hc => h (hc ▸ List.mem_cons_self c rest)
    have hrest : '\n' ∉ rest := fun hr => h (List.mem_cons_of_mem c hr)
    simp only [splitLines]
    rw [if_neg (fun hh => hc hh), ih hrest]

theorem splitLines_append (a b : List Char) (h : '\n' ∉ a) :
    splitLines (a ++ '\n' :: b) = a :: splitLines b := by
  induction a with
  | nil => simp [splitLines]
  | cons c rest ih =>
    have hc : c ≠ '\n' := fun hc => h (hc ▸ List.mem_cons_self c rest)
    have hrest : '\n' ∉ rest := fun hr => h (List.mem_cons_of_mem c hr)
    simp only [List.cons_append, splitLines]
    rw [if_neg (fun hh => hc hh)]
    have heq : rest.append ('\n' :: b) = rest ++ '\n' :: b := rfl
    rw [heq, ih hrest]

theorem joinLines_cons (l : Line) (ls : List Line) (h : ls ≠ []) :
    joinLines (l :: ls) = l ++ '\n' :: joinLines ls := by
  cases ls with
  | nil => exact absurd rfl h
  | cons m ms => rfl

theorem splitLines_joinLines (ls : List Line) (hne : ls ≠ [])
    (hnl : ∀ l ∈ ls, '\n' ∉ l) : splitLines (joinLines ls) = ls := by
  induction ls with
  | nil => exact absurd rfl hne
  | cons l rest ih =>
    cases rest with
    | nil =>
      simp only [joinLines]
      exact splitLines_of_noNL l (hnl l (List.mem_cons_self l []))
    | cons m ms =>
      rw [joinLines_cons l (m :: ms) (by simp)]
      rw [splitLines_append _ _ (hnl l (List.mem_cons_self l (m :: ms)))]
      rw [ih (by simp) (fun x hx => hnl x (List.mem_cons_of_mem l hx))]

theorem joinLines_append_single (xs : List Line) (y : Line) (h : xs ≠ []) :
    joinLines (xs ++ [y]) = joinLines xs ++ '\n' :: y := by
  induction xs with
  | nil => exact absurd rfl h
  | cons l rest ih =>
    cases rest with
    | nil => simp [joinLines]
    | cons m ms =>
      rw [List.cons_append, joinLines_cons l ((m :: ms) ++ [y]) (by simp),
        joinLines_cons l (m :: ms) (by simp), ih (by simp)]
      simp

theorem joinLines_reverse (ls : List Line) :
    (joinLines ls).reverse = joinLines (ls.reverse.map List.reverse) := by
  induction ls with
  | nil => simp [joinLines]
  | cons l rest ih =>
    cases rest with
    | nil => simp [joinLines]
    | cons m ms =>
      rw [joinLines_cons l (m :: ms) (by simp)]
      have h1 : (l :: m :: ms).reverse.map List.reverse
          = ((m :: ms).reverse.map List.reverse) ++ [l.reverse] := by simp
      rw [h1, joinLines_append_single _ l.reverse (by simp), ← ih]
      simp

/-!
## Stripping a joined buffer, line by line

`pyStripList (joinLines ls)` only discards all-whitespace lines at the two
ends and trims the outermost surviving lines.  The lemmas below make that
precise.
-/

/-- Left trim of a single line. -/
def ltrimLine (l : Line) : Line := ltrimL l

/-- Right trim of a single line. -/
def rtrimLine (l : Line) : Line := rtrimL l

/-- A line consisting of whitespace only. -/
def lineAllWS (l : Line) : Bool := l.all pyIsSpace

/-- The effect of a left strip on a non-empty list of newline-free lines:
leading all-whitespace lines disappear and the first surviving line is
left trimmed. -/
def ltrimLines : List Line → List Line
  | [] => [[]]
  | l :: rest =>
    match rest with
    | [] => [ltrimLine l]
    | _ :: _ => if lineAllWS l then ltrimLines rest else ltrimLine l :: rest

/-- The mirror image of `ltrimLines` for the right strip. -/
def rtrimLines (ls : List Line) : List Line :=
  (ltrimLines (ls.reverse.map List.reverse)).reverse.map List.reverse

/-- The effect of a full strip on a list of newline-free lines. -/
def stripLines (ls : List Line) : List Line := rtrimLines (ltrimLines ls)

theorem dropWhile_append_all {p : Char → Bool} {l r : List Char}
    (h : l.all p = true) : (l ++ r).dropWhile p = r.dropWhile p := by
  induction l with
  | nil => simp
  | cons c cs ih =>
    simp only [List.all_cons, Bool.and_eq_true] at h
    simp only [List.cons_append, List.dropWhile_cons, h.1, if_true]
    exact ih h.2

theorem dropWhile_append_not_all {p : Char → Bool} {l r : List Char}
    (h : l.all p = false) : (l ++ r).dropWhile p = l.dropWhile p ++ r := by
  induction l with
  | nil => simp at h
  | cons c cs ih =>
    by_cases hc : p c = true
    · simp only [List.all_cons, hc, Bool.true_and] at h
      simp only [List.cons_append, List.dropWhile_cons, hc, if_true]
      exact ih h
    · simp only [Bool.not_eq_true] at hc
      simp only [List.cons_append, List.dropWhile_cons, hc]
      simp

theorem ltrimL_joinLines (ls : List Line) (h : ls ≠ []) :
    ltrimL (joinLines ls) = joinLines (ltrimLines ls) := by
  induction ls with
  | nil => exact absurd rfl h
  | cons l rest ih =>
    cases rest with
    | nil => rfl
    | cons m ms =>
      rw [joinLines_cons l (m :: ms) (by simp)]
      by_cases hws : lineAllWS l = true
      · have h1 : ltrimL (l ++ '\n' :: joinLines (m :: ms))
            = ltrimL (joinLines (m :: ms)) := by
          unfold ltrimL
          rw [dropWhile_append_all hws]
          simp [List.dropWhile_cons, pyIsSpace]
        rw [h1, ih (by simp)]
        simp only [ltrimLines, hws, if_true]
      · have hws' : lineAllWS l = false := by
          simpa using hws
        have h1 : ltrimL (l ++ '\n' :: joinLines (m :: ms))
            = ltrimLine l ++ '\n' :: joinLines (m :: ms) := by
          unfold ltrimL
          exact dropWhile_append_not_all hws'
        rw [h1]
        have h2 : ltrimLines (l :: m :: ms) = ltrimLine l :: m :: ms := by
          simp [ltrimLines, hws']
        rw [h2, joinLines_cons _ (m :: ms) (by simp)]

theorem ltrimLines_ne_nil (ls : List Line) : ltrimLines ls ≠ [] := by
  induction ls with
  | nil => simp [ltrimLines]
  | cons l rest ih =>
    cases rest with
    | nil => simp [ltrimLines]
    | cons m ms =>
      simp only [ltrimLines]
      split
      · exact ih
      · simp

theorem ltrimLines_shape (ls : List Line) (h : ls ≠ []) :
    ∃ c S, ltrimLines ls = ltrimLine c :: S ∧ (c :: S) <:+ ls := by
  induction ls with
  | nil => exact absurd rfl h
  | cons l rest ih =>
    cases rest with
    | nil => exact ⟨l, [], rfl, List.suffix_refl _⟩
    | cons m ms =>
      by_cases hws : lineAllWS l = true
      · obtain ⟨c, S, h1, h2⟩ := ih (by simp)
        refine ⟨c, S, ?_, h2.trans (List.suffix_cons l (m :: ms))⟩
        simp only [ltrimLines, hws, if_true]
        exact h1
      · refine ⟨l, m :: ms, ?_, List.suffix_refl _⟩
        have hws' : lineAllWS l = false := by simpa using hws
        simp [ltrimLines, hws']

theorem rtrimL_joinLines (ls : List Line) (h : ls ≠ []) :
    rtrimL (joinLines ls) = joinLines (rtrimLines ls) := by
  unfold rtrimL rtrimLines
  rw [joinLines_reverse ls,
    ltrimL_joinLines (ls.reverse.map List.reverse) (by simpa using h),
    joinLines_reverse]

theorem pyStrip_joinLines (ls : List Line) (h : ls ≠ []) :
    pyStripList (joinLines ls) = joinLines (stripLines ls) := by
  unfold pyStripList stripLines
  have h1 : ltrimL (joinLines ls) = joinLines (ltrimLines ls) :=
    ltrimL_joinLines ls h
  rw [h1, rtrimL_joinLines _ (ltrimLines_ne_nil ls)]

theorem stripLines_decomp (ls : List Line) (h : ls ≠ []) :
    ∃ c S P d, ltrimLines ls = ltrimLine c :: S ∧ (c :: S) <:+ ls ∧
      stripLines ls = P ++ [rtrimLine d] ∧ (P ++ [d]) <+: (ltrimLine c :: S) := by
  obtain ⟨c, S, h1, h2⟩ := ltrimLines_shape ls h
  have hM : ((ltrimLine c :: S).reverse.map List.reverse) ≠ [] := by simp
  obtain ⟨e, U, h3, h4⟩ := ltrimLines_shape _ hM
  refine ⟨c, S, U.reverse.map List.reverse, e.reverse, h1, h2, ?_, ?_⟩
  · unfold stripLines rtrimLines
    rw [h1, h3]
    simp [rtrimLine, rtrimL, ltrimLine]
  · have h5 : (e :: U).reverse <+: ((ltrimLine c :: S).reverse.map List.reverse).reverse :=
      List.reverse_prefix.mpr h4
    have h6 := List.IsPrefix.map List.reverse h5
    have h7 : (((ltrimLine c :: S).reverse.map List.reverse).reverse.map List.reverse)
        = ltrimLine c :: S := by simp
    rw [h7] at h6
    simpa using h6

theorem noNL_ltrimLine {l : Line} (h : '\n' ∉ l) : '\n' ∉ ltrimLine l :=
  fun hm => h ((List.dropWhile_sublist pyIsSpace).subset hm)

theorem noNL_rtrimLine {l : Line} (h : '\n' ∉ l) : '\n' ∉ rtrimLine l := by
  intro hm
  unfold rtrimLine rtrimL at hm
  rw [List.mem_reverse] at hm
  exact noNL_ltrimLine (by simpa using h) hm

theorem noNL_ltrimLines {ls : List Line} (h : ∀ l ∈ ls, '\n' ∉ l) :
    ∀ l ∈ ltrimLines ls, '\n' ∉ l := by
  induction ls with
  | nil =>
    intro l hl
    simp only [ltrimLines, List.mem_singleton] at hl
    simp [hl]
  | cons x rest ih =>
    intro l hl
    cases rest with
    | nil =>
      simp only [ltrimLines, List.mem_singleton] at hl
      exact hl ▸ noNL_ltrimLine (h x (List.mem_cons_self x []))
    | cons m ms =>
      simp only [ltrimLines] at hl
      by_cases hws : lineAllWS x = true
      · rw [if_pos hws] at hl
        exact ih (fun y hy => h y (List.mem_cons_of_mem x hy)) l hl
      · rw [if_neg hws] at hl
        rcases List.mem_cons.mp hl with h1 | h1
        · exact h1 ▸ noNL_ltrimLine (h x (List.mem_cons_self x (m :: ms)))
        · exact h l (List.mem_cons_of_mem x h1)

theorem noNL_stripLines {ls : List Line} (h : ∀ l ∈ ls, '\n' ∉ l) :
    ∀ l ∈ stripLines ls, '\n' ∉ l := by
  intro l hl
  unfold stripLines rtrimLines at hl
  simp only [List.mem_map, List.mem_reverse] at hl
  obtain ⟨y, hy, hyx⟩ := hl
  have hMnl : ∀ z ∈ (ltrimLines ls).reverse.map List.reverse, '\n' ∉ z := by
    intro z hz
    simp only [List.mem_map, List.mem_reverse] at hz
    obtain ⟨w, hw, hwz⟩ := hz
    subst hwz
    rw [List.mem_reverse]
    exact noNL_ltrimLines h w hw
  have := noNL_ltrimLines hMnl y hy
  subst hyx
  rw [List.mem_reverse]
  exact this

theorem stripLines_ne_nil (ls : List Line) : stripLines ls ≠ [] := by
  unfold stripLines rtrimLines
  simp [ltrimLines_ne_nil]

/-!
## Trim commutation and pattern monotonicity
-/

theorem dropWhile_head_not {p : Char → Bool} :
    ∀ {x : List Char} {c : Char} {cs : List Char},
      x.dropWhile p = c :: cs → p c = false := by
  intro x
  induction x with
  | nil => intro c cs h; simp [List.dropWhile] at h
  | cons a as ih =>
    intro c cs h
    by_cases ha : p a = true
    · rw [List.dropWhile_cons, if_pos ha] at h
      exact ih h
    · rw [List.dropWhile_cons, if_neg ha] at h
      cases h
      simpa using ha

theorem dropWhile_idem {p : Char → Bool} (x : List Char) :
    (x.dropWhile p).dropWhile p = x.dropWhile p := by
  rcases h : x.dropWhile p with _ | ⟨c, cs⟩
  · rfl
  · rw [List.dropWhile_cons, if_neg (by simp [dropWhile_head_not h])]

theorem rtrimL_prefix (l : List Char) : rtrimL l <+: l := by
  unfold rtrimL ltrimL
  have h := List.dropWhile_suffix (l := l.reverse) pyIsSpace
  have h2 := List.reverse_prefix.mpr h
  simpa using h2

theorem ltrim_rtrim_comm (l : List Char) : ltrimL (rtrimL l) = rtrimL (ltrimL l) := by
  induction l with
  | nil => rfl
  | cons c cs ih =>
    by_cases hc : pyIsSpace c = true
    · have h1 : ltrimL (c :: cs) = ltrimL cs := by
        simp [ltrimL, List.dropWhile_cons, hc]
      by_cases hall : cs.reverse.all pyIsSpace = true
      · have h2 : rtrimL (c :: cs) = [] := by
          unfold rtrimL ltrimL
          rw [List.reverse_cons, dropWhile_append_all hall]
          simp [List.dropWhile_cons, hc]
        have hcs : ltrimL cs = [] := by
          unfold ltrimL
          rw [List.dropWhile_eq_nil_iff]
          intro x hx
          exact List.all_eq_true.mp hall x (List.mem_reverse.mpr hx)
        rw [h2, h1, hcs]
        rfl
      · have hall' : cs.reverse.all pyIsSpace = false := by simpa using hall
        have h2 : rtrimL (c :: cs) = c :: rtrimL cs := by
          unfold rtrimL ltrimL
          rw [List.reverse_cons, dropWhile_append_not_all hall']
          simp
        rw [h2]
        have h3 : ltrimL (c :: rtrimL cs) = ltrimL (rtrimL cs) := by
          simp [ltrimL, List.dropWhile_cons, hc]
        rw [h3, ih, h1]
    · have hc' : pyIsSpace c = false := by simpa using hc
      have h1 : ltrimL (c :: cs) = c :: cs := by
        simp [ltrimL, List.dropWhile_cons, hc']
      rw [h1]
      rcases hpre : rtrimL (c :: cs) with _ | ⟨d, ds⟩
      · exfalso
        unfold rtrimL ltrimL at hpre
        rw [List.reverse_eq_nil_iff, List.dropWhile_eq_nil_iff] at hpre
        have := hpre c (by simp)
        rw [hc'] at this
        exact absurd this (by simp)
      · have hp : rtrimL (c :: cs) <+: c :: cs := rtrimL_prefix _
        rw [hpre] at hp
        obtain ⟨hdc, _⟩ := List.cons_prefix_cons.mp hp
        subst hdc
        have h2 : ltrimL (d :: ds) = d :: ds := by
          simp [ltrimL, List.dropWhile_cons, hc']
        exact h2

theorem rtrimL_idem (l : List Char) : rtrimL (rtrimL l) = rtrimL l := by
  unfold rtrimL ltrimL
  rw [List.reverse_reverse, dropWhile_idem]

theorem pyStrip_rtrimL (l : List Char) :
    pyStripList (rtrimL l) = pyStripList l := by
  unfold pyStripList
  rw [ltrim_rtrim_comm, rtrimL_idem]

theorem startsWithL_iff (pat s : List Char) : startsWithL pat s = true ↔ pat <+: s := by
  induction pat generalizing s with
  | nil => simp [startsWithL]
  | cons p ps ih =>
    cases s with
    | nil => simp [startsWithL]
    | cons c cs =>
      simp only [startsWithL, Bool.and_eq_true, decide_eq_true_eq,
        List.cons_prefix_cons, ih]

theorem startsWithL_mono {pat m l : List Char} (hml : m <+: l)
    (h : startsWithL pat m = true) : startsWithL pat l = true :=
  (startsWithL_iff pat l).mpr (((startsWithL_iff pat m).mp h).trans hml)

theorem isInfoHeader_mono {m l : Line} (hml : m <+: l)
    (h : isInfoHeader m = true) : isInfoHeader l = true := by
  unfold isInfoHeader at h ⊢
  simp only [Bool.or_eq_true] at h ⊢
  rcases h with ((((h | h) | h) | h) | h) | h <;>
    simp [startsWithL_mono hml h]

theorem isShellReset_mono {m l : Line} (hml : m <+: l)
    (h : isShellReset m = true) : isShellReset l = true := by
  unfold isShellReset at h ⊢
  exact startsWithL_mono hml h

theorem timestampTag_append_ne {m : List Char} (ext : List Char)
    (h : timestampTag m ≠ none) : timestampTag (m ++ ext) ≠ none := by
  unfold timestampTag at h ⊢
  split at h
  · split at h
    next hdig =>
      simp only [List.cons_append]
      rw [if_pos hdig]
      simp
    next => exact absurd rfl h
  · exact absurd rfl h

theorem timestampTag_prefix_none {m l : Line} (hml : m <+: l)
    (h : timestampTag l = none) : timestampTag m = none := by
  obtain ⟨ext, rfl⟩ := hml
  cases htm : timestampTag m with
  | none => rfl
  | some t =>
    exact absurd h (timestampTag_append_ne ext (by rw [htm]; simp))

theorem capturable_rtrimLine {l : Line} (h : capturableLine l = true) :
    capturableLine (rtrimLine l) = true := by
  simp only [capturableLine, Bool.and_eq_true, Bool.not_eq_true',
    Option.isNone_iff_eq_none] at h ⊢
  obtain ⟨⟨⟨hts, hinfo⟩, hrule⟩, hshell⟩ := h
  have hpre : rtrimLine l <+: l := rtrimL_prefix l
  refine ⟨⟨⟨timestampTag_prefix_none hpre hts, ?_⟩, ?_⟩, ?_⟩
  · cases hsw : isInfoHeader (rtrimLine l) with
    | false => rfl
    | true => rw [isInfoHeader_mono hpre hsw] at hinfo; cases hinfo
  · unfold isRuleLine at hrule ⊢
    unfold rtrimLine
    simp only [pyStrip_rtrimL]
    exact hrule
  · cases hsw : isShellReset (rtrimLine l) with
    | false => rfl
    | true => rw [isShellReset_mono hpre hsw] at hshell; cases hshell

/-!
## Invariants of the capture loop
-/

theorem parseLinesLoop_sublist (lines : List Line) (b : Bool) :
    (parseLinesLoop lines b).Sublist lines := by
  induction lines generalizing b with
  | nil => simp [parseLinesLoop]
  | cons line rest ih =>
    simp only [parseLinesLoop]
    cases htag : timestampTag line with
    | some tag =>
      simp only []
      split
      · exact (ih true).cons line
      · split
        · exact (ih false).cons line
        · split
          · exact (ih false).cons line
          · exact (ih b).cons line
    | none =>
      simp only []
      split
      · exact (ih b).cons line
      · split
        · exact (ih b).cons line
        · split
          · exact (ih b).cons line
          · split
            · exact (ih true).cons₂ line
            · exact (ih false).cons line

theorem parseLinesLoop_capturable (lines : List Line) (b : Bool) :
    ∀ l ∈ parseLinesLoop lines b, capturableLine l = true := by
  induction lines generalizing b with
  | nil => simp [parseLinesLoop]
  | cons line rest ih =>
    intro l hl
    simp only [parseLinesLoop] at hl
    cases htag : timestampTag line with
    | some tag =>
      rw [htag] at hl
      simp only [] at hl
      split at hl
      · exact ih true l hl
      · split at hl
        · exact ih false l hl
        · split at hl
          · exact ih false l hl
          · exact ih b l hl
    | none =>
      rw [htag] at hl
      simp only [] at hl
      split at hl
      next hinfo =>
        exact ih b l hl
      next hinfo =>
        split at hl
        next hrule => exact ih b l hl
        next hrule =>
          split at hl
          next hshell => exact ih b l hl
          next hshell =>
            split at hl
            · rcases List.mem_cons.mp hl with h1 | h1
              · subst h1
                unfold capturableLine
                rw [htag]
                simp only [Option.isNone_none, Bool.true_and]
                rw [Bool.not_eq_true] at hinfo hrule hshell
                simp [hinfo, hrule, hshell]
              · exact ih true l h1
            · exact ih false l hl

theorem parseLinesLoop_no_codex (lines : List Line)
    (h : ∀ l ∈ lines, timestampTag l ≠ some ("codex".data)) :
    parseLinesLoop lines false = [] := by
  induction lines with
  | nil => rfl
  | cons line rest ih =>
    have hrest : ∀ l ∈ rest, timestampTag l ≠ some ("codex".data) :=
      fun l hl => h l (List.mem_cons_of_mem line hl)
    simp only [parseLinesLoop]
    cases htag : timestampTag line with
    | some tag =>
      have hne : ¬ tag = "codex".data := by
        intro he
        exact h line (List.mem_cons_self line rest) (by rw [htag, he])
      simp only []
      rw [if_neg hne]
      split
      · exact ih hrest
      · split
        · exact ih hrest
        · exact ih hrest
    | none =>
      simp only []
      have hff : ¬ (false = true) := by simp
      split
      · exact ih hrest
      · split
        · exact ih hrest
        · split
          · exact ih hrest
          · exact ih hrest

theorem dropToHeading_split (pre : List Line) (hd : Line) (rest : List Line)
    (hh : isHeadingLine hd = true) (hp : ∀ l ∈ pre, isHeadingLine l = false) :
    dropToHeading (pre ++ hd :: rest) = some (hd :: rest) := by
  induction pre with
  | nil => simp [dropToHeading, hh]
  | cons p ps ih =>
    have hp0 : isHeadingLine p = false := hp p (List.mem_cons_self p ps)
    simp only [List.cons_append, dropToHeading, hp0]
    simp only [Bool.false_eq_true, if_false]
    exact ih (fun l hl => hp l (List.mem_cons_of_mem p hl))

/-!
## Claim theorems for the transcript parser: C2, C4, C3
-/

/-- C2: on the concrete transcript with one codex header, two content
lines and a usage footer, the parser returns exactly the two content
lines joined by a newline. -/
theorem c2_concrete_transcript :
    parse_codex_output
      ("[2024-01-01T00:00:00] codex\n# PR Review: PROJ-42\nLGTM\n[2024-01-01T00:00:01] tokens used: 42\n").data
      = ("# PR Review: PROJ-42\nLGTM").data := by
  decide

/-- C4: when no line of the (stripped) input matches the codex response
header, the state never leaves Idle, no line is captured, and the parser
returns the empty string. -/
theorem c4_no_codex_header_gives_empty (output : List Char)
    (h : ∀ l ∈ splitLines (pyStripList output), timestampTag l ≠ some ("codex".data)) :
    parse_codex_output output = [] := by
  unfold parse_codex_output capturedBuffer
  rw [parseLinesLoop_no_codex _ h]
  rfl

/-- Witness for C4 on a concrete input with no codex header line. -/
theorem c4_witness :
    parse_codex_output ("hello\n[2024-01-01T00:00:00] thinking\nworld").data = [] :=
  c4_no_codex_header_gives_empty _ (by decide)

/-- C3: when the assembled capture buffer is non-empty and does not start
with a hash, the parser drops everything before the first markdown
heading line of the buffer and returns the heading line with everything
after it. -/
theorem c3_preheading_discarded (output : List Char) (pre : List Line)
    (hd : Line) (rest : List Line)
    (hne : capturedBuffer output ≠ [])
    (hhash : (capturedBuffer output).head? ≠ some '#')
    (hsplit : splitLines (capturedBuffer output) = pre ++ hd :: rest)
    (hhead : isHeadingLine hd = true)
    (hpre : ∀ l ∈ pre, isHeadingLine l = false) :
    parse_codex_output output = joinLines (hd :: rest) := by
  unfold parse_codex_output postProcess
  cases hbuf : capturedBuffer output with
  | nil => exact absurd hbuf hne
  | cons c cs =>
    have hc : ¬ c = '#' := by
      intro he
      apply hhash
      rw [hbuf, he]
      rfl
    simp only []
    rw [if_neg hc]
    rw [hbuf] at hsplit
    rw [hsplit, dropToHeading_split pre hd rest hhead hpre]

/-- Witness for C3: reasoning text leaks into the captured region before
the true heading and is discarded. -/
theorem c3_witness :
    parse_codex_output
        ("[2024-01-01T00:00:00] codex\nreasoning text\n# PR Review: X\ndone").data
      = joinLines [("# PR Review: X").data, ("done").data] :=
  c3_preheading_discarded _ [("reasoning text").data] (("# PR Review: X").data)
    [("done").data] (by decide) (by decide) (by decide) (by decide) (by decide)

/-!
## Claim C1: two capture regions separated by a thinking block
-/

theorem parseLinesLoop_codex_header (hA : Line) (rest : List Line) (b : Bool)
    (h : timestampTag hA = some ("codex".data)) :
    parseLinesLoop (hA :: rest) b = parseLinesLoop rest true := by
  simp only [parseLinesLoop, h]
  rw [if_pos trivial]

theorem parseLinesLoop_end_header (hT : Line) (rest : List Line) (b : Bool)
    (tag : List Char) (h : timestampTag hT = some tag)
    (hend : isEndTag tag = true) (hne : tag ≠ "codex".data) :
    parseLinesLoop (hT :: rest) b = parseLinesLoop rest false := by
  simp only [parseLinesLoop, h]
  rw [if_neg hne, if_pos hend]

theorem parseLinesLoop_capture_append (A rest : List Line)
    (h : ∀ l ∈ A, capturableLine l = true) :
    parseLinesLoop (A ++ rest) true = A ++ parseLinesLoop rest true := by
  induction A with
  | nil => rfl
  | cons a as ih =>
    have ha := h a (List.mem_cons_self a as)
    simp only [capturableLine, Bool.and_eq_true, Bool.not_eq_true',
      Option.isNone_iff_eq_none] at ha
    obtain ⟨⟨⟨hts, hinfo⟩, hrule⟩, hshell⟩ := ha
    simp only [List.cons_append, parseLinesLoop, hts]
    rw [hinfo, hrule, hshell]
    simp only [Bool.false_eq_true, if_false, if_true]
    have happ : as.append rest = as ++ rest := rfl
    rw [happ, ih (fun l hl => h l (List.mem_cons_of_mem a hl))]

theorem parseLinesLoop_idle_skip (T rest : List Line)
    (h : ∀ l ∈ T, timestampTag l = none) :
    parseLinesLoop (T ++ rest) false = parseLinesLoop rest false := by
  induction T with
  | nil => rfl
  | cons t ts ih =>
    have ht := h t (List.mem_cons_self t ts)
    have ihr := ih (fun l hl => h l (List.mem_cons_of_mem t hl))
    simp only [List.cons_append, parseLinesLoop, ht]
    split
    · exact ihr
    · split
      · exact ihr
      · split
        · exact ihr
        · exact ihr

theorem joinLines_head_hash (s : List Char) (X : List Line) :
    ∃ ys, joinLines (('#' :: s) :: X) = '#' :: ys := by
  cases X with
  | nil => exact ⟨s, rfl⟩
  | cons m ms => exact ⟨s ++ '\n' :: joinLines (m :: ms), rfl⟩

theorem postProcess_hash (ys : List Char) : postProcess ('#' :: ys) = '#' :: ys := by
  simp [postProcess]

/-- C1 (amended): an input made of a codex header, a first capture region,
a thinking header with its reasoning lines, a second codex header and a
second capture region parses to the newline-join of the two capture
regions, provided the whole input and the joined regions carry no
surrounding whitespace and the first captured line starts with a hash
(otherwise trimming or the heading heuristic may remove captured
content). -/
theorem c1_two_regions (hA hT hB : Line) (A T B : List Line) (tagT : List Char)
    (hhA : timestampTag hA = some ("codex".data))
    (hhB : timestampTag hB = some ("codex".data))
    (hhT : timestampTag hT = some tagT)
    (htagT : startsWithL ("thinking".data) tagT = true)
    (hAcap : ∀ l ∈ A, capturableLine l = true)
    (hBcap : ∀ l ∈ B, capturableLine l = true)
    (hTts : ∀ l ∈ T, timestampTag l = none)
    (hnl : ∀ l ∈ (hA :: A ++ hT :: T ++ hB :: B), '\n' ∉ l)
    (hstrip : pyStripList (joinLines (hA :: A ++ hT :: T ++ hB :: B))
        = joinLines (hA :: A ++ hT :: T ++ hB :: B))
    (hstripAB : pyStripList (joinLines (A ++ B)) = joinLines (A ++ B))
    (hAhead : ∃ s arest, A = ('#' :: s) :: arest) :
    parse_codex_output (joinLines (hA :: A ++ hT :: T ++ hB :: B))
      = joinLines (A ++ B) := by
  obtain ⟨s, arest, hAeq⟩ := hAhead
  have hTne : tagT ≠ "codex".data := by
    intro he
    rw [he] at htagT
    exact absurd htagT (by decide)
  unfold parse_codex_output capturedBuffer
  rw [hstrip, splitLines_joinLines _ (by simp) hnl]
  have hloop : parseLinesLoop (hA :: A ++ hT :: T ++ hB :: B) false = A ++ B := by
    rw [show (hA :: A ++ hT :: T ++ hB :: B)
        = hA :: (A ++ (hT :: (T ++ (hB :: B)))) by simp]
    rw [parseLinesLoop_codex_header hA _ false hhA]
    rw [parseLinesLoop_capture_append A _ hAcap]
    rw [parseLinesLoop_end_header hT _ true tagT hhT (by
      unfold isEndTag
      rw [htagT]
      simp) hTne]
    rw [parseLinesLoop_idle_skip T _ hTts]
    rw [parseLinesLoop_codex_header hB _ false hhB]
    rw [show (B : List Line) = B ++ [] by simp,
      parseLinesLoop_capture_append B [] hBcap]
    simp [parseLinesLoop]
  rw [hloop, hstripAB, hAeq]
  obtain ⟨ys, hys⟩ := joinLines_head_hash s (arest ++ B)
  rw [List.cons_append, hys, postProcess_hash]

/-- C1 counterexample: with capture regions (["x"], ["# h"]) the claim
demands the output "x\n# h", but the heading heuristic discards the
captured line before the heading and the parser returns "# h". -/
theorem c1_counterexample :
    parse_codex_output
        ("[2024-01-01T00:00:00] codex\nx\n[2024-01-01T00:00:01] thinking\nr\n[2024-01-01T00:00:02] codex\n# h").data
      = ("# h").data ∧ ("# h").data ≠ ("x\n# h").data := by
  constructor
  · decide
  · decide

/-!
## Claim C10: output lines come from the input
-/

/-- A relation between an output line and the captured source line it came
from: equal, or trimmed at one or both ends by the whole-buffer strip. -/
def lineDerived (out src : Line) : Prop :=
  out = src ∨ out = ltrimLine src ∨ out = rtrimLine src ∨
    out = rtrimLine (ltrimLine src)

theorem forall₂_append_pairs {R : Line → Line → Prop} :
    ∀ {l₁ l₂ u₁ u₂ : List Line}, List.Forall₂ R l₁ l₂ → List.Forall₂ R u₁ u₂ →
      List.Forall₂ R (l₁ ++ u₁) (l₂ ++ u₂) := by
  intro l₁ l₂ u₁ u₂ h hu
  induction h with
  | nil => simpa using hu
  | cons hx _ ih => exact List.Forall₂.cons hx ih

theorem forall₂_drop {R : Line → Line → Prop} :
    ∀ (n : Nat) {l₁ l₂ : List Line}, List.Forall₂ R l₁ l₂ →
      List.Forall₂ R (l₁.drop n) (l₂.drop n) := by
  intro n
  induction n with
  | zero => intro l₁ l₂ h; simpa using h
  | succ k ih =>
    intro l₁ l₂ h
    cases h with
    | nil => exact List.Forall₂.nil
    | cons hx hxs => simpa using ih hxs

theorem dropToHeading_drop :
    ∀ (ls : List Line) (out : List Line), dropToHeading ls = some out →
      ∃ k, out = ls.drop k ∧ out ≠ [] := by
  intro ls
  induction ls with
  | nil => intro out h; cases h
  | cons l rest ih =>
    intro out h
    unfold dropToHeading at h
    by_cases hh : isHeadingLine l = true
    · rw [if_pos hh] at h
      cases h
      exact ⟨0, rfl, by simp⟩
    · rw [if_neg hh] at h
      obtain ⟨k, hk, hne⟩ := ih out h
      exact ⟨k + 1, by simpa using hk, hne⟩

theorem splitLines_postProcess (result : List Char) :
    ∃ k, splitLines (postProcess result) = (splitLines result).drop k := by
  unfold postProcess
  cases result with
  | nil => exact ⟨0, rfl⟩
  | cons c cs =>
    simp only []
    by_cases hc : c = '#'
    · rw [if_pos hc]
      exact ⟨0, rfl⟩
    · rw [if_neg hc]
      cases hdrop : dropToHeading (splitLines (c :: cs)) with
      | none => exact ⟨0, rfl⟩
      | some out =>
        obtain ⟨k, hk, hne⟩ := dropToHeading_drop _ out hdrop
        refine ⟨k, ?_⟩
        rw [splitLines_joinLines out hne (fun l hl =>
          noNL_splitLines (c :: cs) l (List.mem_of_mem_drop (hk ▸ hl)))]
        exact hk

/-- C10 (amended): the parser output, split into lines, consists of
captured input lines, in input order and without duplication, except that
the first (through the left half of the whole-result strip) and last
(through its right half) output line may be a trimmed copy of the
captured line.  Every captured line passes all skip tests (no timestamp
header, no info header, no horizontal rule, no shell reset notice), and
every output line after the first still does, since right trimming
preserves those tests; only the first output line can take a banned form,
by losing leading whitespace. -/
theorem c10_output_lines_from_input (output : List Char) :
    ∃ cap : List Line,
      cap.Sublist (splitLines (pyStripList output)) ∧
      (∀ l ∈ cap, capturableLine l = true) ∧
      (parse_codex_output output = [] ∨
        ∃ f rest sub, splitLines (parse_codex_output output) = f :: rest ∧
          sub.Sublist cap ∧ List.Forall₂ lineDerived (f :: rest) sub ∧
          (∀ l ∈ rest, capturableLine l = true)) := by
  refine ⟨parseLinesLoop (splitLines (pyStripList output)) false,
    parseLinesLoop_sublist _ _, parseLinesLoop_capturable _ _, ?_⟩
  set cap := parseLinesLoop (splitLines (pyStripList output)) false with hcap
  rcases eq_or_ne cap [] with hnil | hne
  · left
    unfold parse_codex_output capturedBuffer
    rw [← hcap, hnil]
    rfl
  · have hcapt : ∀ l ∈ cap, capturableLine l = true := by
      rw [hcap]
      exact parseLinesLoop_capturable _ _
    have hnlcap : ∀ l ∈ cap, '\n' ∉ l := by
      rw [hcap]
      exact fun l hl =>
        noNL_splitLines _ l ((parseLinesLoop_sublist _ _).subset hl)
    have hres : capturedBuffer output = joinLines (stripLines cap) := by
      unfold capturedBuffer
      rw [← hcap]
      exact pyStrip_joinLines cap hne
    have hsplitres : splitLines (capturedBuffer output) = stripLines cap := by
      rw [hres]
      exact splitLines_joinLines _ (stripLines_ne_nil cap) (noNL_stripLines hnlcap)
    obtain ⟨c, S, P, d, h1, h2, h3, h4⟩ := stripLines_decomp cap hne
    have hcS : ∀ l ∈ c :: S, capturableLine l = true := fun l hl =>
      hcapt l (h2.sublist.subset hl)
    have hbase : ∃ sub0 : List Line, sub0.Sublist cap ∧
        List.Forall₂ lineDerived (stripLines cap) sub0 ∧
        (∀ l ∈ (stripLines cap).tail, capturableLine l = true) := by
      cases P with
      | nil =>
        have hd : d = ltrimLine c := (List.cons_prefix_cons.mp h4).1
        refine ⟨[c],
          List.singleton_sublist.mpr (h2.sublist.subset (List.mem_cons_self c S)),
          ?_, ?_⟩
        · rw [h3, hd]
          exact List.Forall₂.cons (Or.inr (Or.inr (Or.inr rfl))) List.Forall₂.nil
        · rw [h3]
          intro l hl
          simp at hl
      | cons p0 P' =>
        obtain ⟨hp0, hrest⟩ := List.cons_prefix_cons.mp h4
        have hSsub : ∀ l ∈ S, capturableLine l = true := fun l hl =>
          hcS l (List.mem_cons_of_mem c hl)
        have hP' : ∀ l ∈ P', capturableLine l = true := fun l hl =>
          hSsub l (hrest.sublist.subset (List.mem_append_left [d] hl))
        have hdS : d ∈ S :=
          hrest.sublist.subset (List.mem_append_right P' (List.mem_singleton.mpr rfl))
        refine ⟨c :: (P' ++ [d]), ?_, ?_, ?_⟩
        · have hpre : (c :: (P' ++ [d])) <+: (c :: S) :=
            List.cons_prefix_cons.mpr ⟨rfl, hrest⟩
          exact hpre.sublist.trans h2.sublist
        · rw [h3, hp0]
          refine List.Forall₂.cons (Or.inr (Or.inl rfl)) ?_
          refine forall₂_append_pairs (List.forall₂_same.mpr fun x _ => Or.inl rfl) ?_
          exact List.Forall₂.cons (Or.inr (Or.inr (Or.inl rfl))) List.Forall₂.nil
        · rw [h3, hp0]
          intro l hl
          simp only [List.cons_append, List.tail_cons] at hl
          rcases List.mem_append.mp hl with h5 | h5
          · exact hP' l h5
          · rw [List.mem_singleton] at h5
            subst h5
            exact capturable_rtrimLine (hSsub d hdS)
    obtain ⟨sub0, hsub0, hF, htail⟩ := hbase
    obtain ⟨k, hk⟩ := splitLines_postProcess (capturedBuffer output)
    have houtsplit : splitLines (parse_codex_output output)
        = (stripLines cap).drop k := by
      unfold parse_codex_output
      rw [hk, hsplitres]
    rcases hout : splitLines (parse_codex_output output) with _ | ⟨f, rest⟩
    · exact absurd hout (splitLines_ne_nil _)
    · right
      have hfr : f :: rest = (stripLines cap).drop k := by
        rw [← hout, houtsplit]
      refine ⟨f, rest, sub0.drop k, rfl,
        (List.drop_sublist k sub0).trans hsub0, ?_, ?_⟩
      · rw [hfr]
        exact forall₂_drop k hF
      · intro l hl
        have h5 : l ∈ ((stripLines cap).drop k).tail := by
          rw [← hfr]
          exact hl
        rw [List.tail_drop] at h5
        have h6 : l ∈ (stripLines cap).tail := by
          have h7 : (stripLines cap).drop (k + 1)
              = ((stripLines cap).tail).drop k := by
            rw [← List.drop_one, List.drop_drop, Nat.add_comm]
          rw [h7] at h5
          exact List.mem_of_mem_drop h5
        exact htail l h6

/-- C10 counterexample: the whole-result strip removes the leading space
of the only captured line, so the single output line starts with the
shell reset marker, a banned line form, and equals no line of the
input. -/
theorem c10_counterexample :
    parse_codex_output ("[2024-01-01T00:00:00] codex\n Shell cwd was reset more").data
        = ("Shell cwd was reset more").data ∧
      isShellReset (("Shell cwd was reset more").data) = true ∧
      splitLines (("Shell cwd was reset more").data)
        = [("Shell cwd was reset more").data] := by
  refine ⟨by decide, by decide, by decide⟩

/-- Witness for the amended C1 on a concrete two-region transcript. -/
theorem c1_witness :
    parse_codex_output
        ("[2024-01-01T00:00:00] codex\n# PR Review: 1\n[2024-01-01T00:00:01] thinking\nsome reasoning\n[2024-01-01T00:00:02] codex\nMore").data
      = joinLines [("# PR Review: 1").data, ("More").data] := by
  have h := c1_two_regions ("[2024-01-01T00:00:00] codex").data
    ("[2024-01-01T00:00:01] thinking").data
    ("[2024-01-01T00:00:02] codex").data
    [("# PR Review: 1").data] [("some reasoning").data] [("More").data]
    ("thinking").data
    (by decide) (by decide) (by decide) (by decide) (by decide) (by decide)
    (by decide) (by decide) (by decide) (by decide)
    ⟨(" PR Review: 1").data, [], by decide⟩
  exact (by decide :
      ("[2024-01-01T00:00:00] codex\n# PR Review: 1\n[2024-01-01T00:00:01] thinking\nsome reasoning\n[2024-01-01T00:00:02] codex\nMore").data
        = joinLines (("[2024-01-01T00:00:00] codex").data ::
            [("# PR Review: 1").data] ++ ("[2024-01-01T00:00:01] thinking").data ::
            [("some reasoning").data] ++ ("[2024-01-01T00:00:02] codex").data ::
            [("More").data])) ▸ h

/-!
## The engine registry of `src/engines/__init__.py`
-/

/-- The engine classes of the registry, one constructor per entry. -/
inductive EngineKind
  | claudeAPI
  | claudeCLI
  | openaiAPI
  | openaiCodexCLI
deriving DecidableEq

/-- The registry `ENGINES`, in declaration order. -/
def ENGINES : List (String × EngineKind) :=
  [("claude-api", EngineKind.claudeAPI),
   ("claude-cli", EngineKind.claudeCLI),
   ("openai-api", EngineKind.openaiAPI),
   ("openai-codex-cli", EngineKind.openaiCodexCLI)]

/-- `list_engines`: the registry keys in declaration order. -/
def list_engines : List String := ENGINES.map Prod.fst

/-- An engine specific configuration section: a string keyed mapping. -/
abbrev EngineConfig := List (String × String)

/-- The configuration dictionary passed to `get_engine`; the `engines`
key may be absent, in which case the source falls back to an empty
mapping. -/
structure PRConfig where
  engines : Option (List (String × EngineConfig))

/-- The error message built by `get_engine` for an unknown identifier:
the identifier followed by the comma separated registry keys. -/
def unknownEngineMsg (engine_name : String) : String :=
  "Unknown engine: " ++ engine_name ++ ". Available: "
    ++ String.intercalate ", " list_engines

/-- `get_engine`: resolve an engine identifier, failing with the message
listing the registered identifiers when unknown; otherwise select the
engine class and its configuration sub-section (empty when absent). -/
def get_engine (engine_name : String) (config : PRConfig) :
    Except String (EngineKind × EngineConfig) :=
  match ENGINES.lookup engine_name with
  | none => Except.error (unknownEngineMsg engine_name)
  | some cls =>
    Except.ok (cls, ((config.engines.getD []).lookup engine_name).getD [])

/-- C6: resolving an unknown identifier fails with the configuration
error message, that message contains every identifier of `list_engines`
as a substring, and resolving a registered identifier never fails this
way. -/
theorem c6_registry_resolve (engine_name : String) (config : PRConfig) :
    (engine_name ∉ list_engines →
      get_engine engine_name config = Except.error (unknownEngineMsg engine_name) ∧
      ∀ eng ∈ list_engines, eng.data <:+: (unknownEngineMsg engine_name).data) ∧
    (engine_name ∈ list_engines →
      ∃ k cfg, get_engine engine_name config = Except.ok (k, cfg)) := by
  constructor
  · intro hnot
    simp only [list_engines, ENGINES, List.map_cons, List.map_nil,
      List.mem_cons, List.not_mem_nil, or_false, not_or] at hnot
    obtain ⟨hn1, hn2, hn3, hn4⟩ := hnot
    constructor
    · have e1 : (engine_name == "claude-api") = false := by simp [hn1]
      have e2 : (engine_name == "claude-cli") = false := by simp [hn2]
      have e3 : (engine_name == "openai-api") = false := by simp [hn3]
      have e4 : (engine_name == "openai-codex-cli") = false := by simp [hn4]
      simp [get_engine, ENGINES, List.lookup, e1, e2, e3, e4]
    · intro eng heng
      have hsuf : (String.intercalate ", " list_engines).data
          <:+ (unknownEngineMsg engine_name).data := by
        unfold unknownEngineMsg
        simp only [String.data_append]
        exact List.suffix_append _ _
      have hinf : eng.data <:+: (String.intercalate ", " list_engines).data := by
        simp only [list_engines, ENGINES, List.map_cons, List.map_nil,
          List.mem_cons, List.not_mem_nil, or_false] at heng
        rcases heng with rfl | rfl | rfl | rfl <;> decide
      exact hinf.trans hsuf.isInfix
  · intro hmem
    simp only [list_engines, ENGINES, List.map_cons, List.map_nil,
      List.mem_cons, List.not_mem_nil, or_false] at hmem
    rcases hmem with rfl | rfl | rfl | rfl <;>
      exact ⟨_, _, rfl⟩

/-- Witness for C6: an unknown identifier is rejected with the message
listing all registered identifiers; a registered one resolves. -/
theorem c6_witness :
    (get_engine "nope" ⟨none⟩ = Except.error (unknownEngineMsg "nope") ∧
      ∀ eng ∈ list_engines, eng.data <:+: (unknownEngineMsg "nope").data) ∧
    ∃ k cfg, get_engine "claude-api" ⟨none⟩ = Except.ok (k, cfg) :=
  ⟨(c6_registry_resolve "nope" ⟨none⟩).1 (by decide),
   (c6_registry_resolve "claude-api" ⟨none⟩).2 (by decide)⟩

/-!
## Prompt construction: `BaseEngine.build_prompt` of `src/engines/base.py`

`build_prompt` is Python `str.format` applied to the template with the
seven keyword arguments of the source.  The embedding models the
fragment of `str.format` the source exercises: named replacement fields,
positional fields and brace escapes.  An unknown field name raises
`KeyError` carrying the name (the template error kind of the
specification); a field whose name is empty or all decimal digits is a
positional index, and since `build_prompt` passes keyword arguments
only, it raises `IndexError`; a stray brace raises `ValueError`;
conversion, format-spec, attribute and index syntax inside a replacement
field are flagged as outside the modelled fragment rather than given a
meaning.
-/

/-- The placeholders recognised by `build_prompt`. -/
inductive FieldName
  | ticket_id
  | pr_title
  | pr_url
  | source_branch
  | target_branch
  | pr_description
  | diff
deriving DecidableEq

/-- The key text of a placeholder. -/
def fieldKey : FieldName → List Char
  | .ticket_id => "ticket_id".data
  | .pr_title => "pr_title".data
  | .pr_url => "pr_url".data
  | .source_branch => "source_branch".data
  | .target_branch => "target_branch".data
  | .pr_description => "pr_description".data
  | .diff => "diff".data

/-- The PR data dictionary fields read by `build_prompt`; `pr_url` is
read with a default (`pr_data.get`), the others by indexing. -/
structure PRData where
  title : List Char
  description : List Char
  source_branch : List Char
  target_branch : List Char
  diff : List Char
  pr_url : Option (List Char)

/-- The value substituted for each placeholder. -/
def fieldVal (d : PRData) (ticket_id : List Char) : FieldName → List Char
  | .ticket_id => ticket_id
  | .pr_title => d.title
  | .pr_url => d.pr_url.getD []
  | .source_branch => d.source_branch
  | .target_branch => d.target_branch
  | .pr_description => d.description
  | .diff => d.diff

/-- Resolve a replacement field name against the keyword arguments of
the `format` call in the source. -/
def lookupField (name : List Char) : Option FieldName :=
  if name = "ticket_id".data then some FieldName.ticket_id
  else if name = "pr_title".data then some FieldName.pr_title
  else if name = "pr_url".data then some FieldName.pr_url
  else if name = "source_branch".data then some FieldName.source_branch
  else if name = "target_branch".data then some FieldName.target_branch
  else if name = "pr_description".data then some FieldName.pr_description
  else if name = "diff".data then some FieldName.diff
  else none

/-- The failure modes of `str.format` as used by `build_prompt`: an
unknown keyword field raises `KeyError` with the name, a positional
field (empty or all-decimal name) raises `IndexError` because the call
passes no positional arguments, a stray brace raises `ValueError`. -/
inductive TemplateError
  | keyError (name : List Char)
  | indexError
  | valueError
  | unmodeled
deriving DecidableEq

/-- Characters that switch a replacement field into conversion,
format-spec, attribute or index syntax; outside the modelled fragment. -/
def isFieldSpecial (c : Char) : Bool :=
  c = ':' || c = '!' || c = '.' || c = '['

/-- The scanning state of the format walk: plain text, or inside a
replacement field with the name characters read so far (reversed). -/
inductive FmtMode
  | text
  | name (acc : List Char)

/-- Python `str.format` over the template, restricted to named
replacement fields, positional fields (empty or all-decimal names,
which raise `IndexError` since the call passes keyword arguments only)
and brace escapes. -/
def pyFormatGo (d : PRData) (tid : List Char) :
    FmtMode → List Char → Except TemplateError (List Char)
  | .text, [] => Except.ok []
  | .text, c :: rest =>
    if c = obr then
      match rest with
      | [] => Except.error TemplateError.valueError
      | c2 :: rest2 =>
        if c2 = obr then (fun s => obr :: s) <$> pyFormatGo d tid FmtMode.text rest2
        else if c2 = cbr then Except.error TemplateError.indexError
        else if isFieldSpecial c2 then Except.error TemplateError.unmodeled
        else pyFormatGo d tid (FmtMode.name [c2]) rest2
    else if c = cbr then
      match rest with
      | [] => Except.error TemplateError.valueError
      | c2 :: rest2 =>
        if c2 = cbr then (fun s => cbr :: s) <$> pyFormatGo d tid FmtMode.text rest2
        else Except.error TemplateError.valueError
    else (fun s => c :: s) <$> pyFormatGo d tid FmtMode.text rest
  | .name _, [] => Except.error TemplateError.valueError
  | .name acc, c :: rest =>
    if c = cbr then
      if acc.reverse.all Char.isDigit then Except.error TemplateError.indexError
      else
        match lookupField acc.reverse with
        | some f => (fun s => fieldVal d tid f ++ s) <$> pyFormatGo d tid FmtMode.text rest
        | none => Except.error (TemplateError.keyError acc.reverse)
    else if c = obr then Except.error TemplateError.valueError
    else if isFieldSpecial c then Except.error TemplateError.unmodeled
    else pyFormatGo d tid (FmtMode.name (c :: acc)) rest

/-- `BaseEngine.build_prompt`: format the template with the seven
placeholder values drawn from the request. -/
def build_prompt (pr_data : PRData) (ticket_id : List Char)
    (prompt_template : List Char) : Except TemplateError (List Char) :=
  pyFormatGo pr_data ticket_id FmtMode.text prompt_template

/-- A template piece: literal text or a recognised placeholder. -/
inductive TemplateChunk
  | lit (s : List Char)
  | ph (f : FieldName)

/-- The template text of a piece. -/
def chunkText : TemplateChunk → List Char
  | .lit s => s
  | .ph f => obr :: (fieldKey f ++ [cbr])

/-- The substituted text of a piece. -/
def chunkVal (d : PRData) (tid : List Char) : TemplateChunk → List Char
  | .lit s => s
  | .ph f => fieldVal d tid f

/-- The template assembled from pieces. -/
def renderTemplate (cs : List TemplateChunk) : List Char :=
  (cs.map chunkText).flatten

/-- The expected formatting result of a piece list. -/
def renderResult (d : PRData) (tid : List Char) (cs : List TemplateChunk) : List Char :=
  (cs.map (chunkVal d tid)).flatten

/-- Text with no brace at all. -/
def braceFree (s : List Char) : Bool :=
  s.all (fun c => !(c = obr) && !(c = cbr))

/-- The literal pieces of a chunk are brace free. -/
def chunkBraceFree : TemplateChunk → Bool
  | .lit s => braceFree s
  | .ph _ => true

/-- The placeholder of a chunk, when it is one. -/
def chunkField : TemplateChunk → Option FieldName
  | .lit _ => none
  | .ph f => some f

/-- A plain replacement field name character. -/
def plainNameChar (c : Char) : Bool :=
  !(c = obr) && !(c = cbr) && !isFieldSpecial c

theorem pyFormatGo_lit (d : PRData) (tid : List Char) (s rest : List Char)
    (h : braceFree s = true) :
    pyFormatGo d tid FmtMode.text (s ++ rest)
      = (fun r => s ++ r) <$> pyFormatGo d tid FmtMode.text rest := by
  induction s with
  | nil =>
    simp only [List.nil_append]
    cases pyFormatGo d tid FmtMode.text rest <;> rfl
  | cons c cs ih =>
    simp only [braceFree, List.all_cons, Bool.and_eq_true, Bool.not_eq_true',
      decide_eq_false_iff_not] at h
    obtain ⟨⟨hc1, hc2⟩, hcs⟩ := h
    have hcs' : braceFree cs = true := by
      simp only [braceFree]
      exact hcs
    rw [List.cons_append]
    conv_lhs => unfold pyFormatGo
    rw [if_neg hc1, if_neg hc2, ih hcs']
    cases pyFormatGo d tid FmtMode.text rest <;> rfl

theorem pyFormatGo_scan (d : PRData) (tid : List Char) (nm : List Char) :
    ∀ (acc rest : List Char), nm.all plainNameChar = true →
      (acc.reverse ++ nm).all Char.isDigit = false →
      pyFormatGo d tid (FmtMode.name acc) (nm ++ cbr :: rest)
        = (match lookupField (acc.reverse ++ nm) with
          | some f =>
            (fun s => fieldVal d tid f ++ s) <$> pyFormatGo d tid FmtMode.text rest
          | none => Except.error (TemplateError.keyError (acc.reverse ++ nm))) := by
  induction nm with
  | nil =>
    intro acc rest _ hdec
    rw [List.append_nil] at hdec
    rw [List.nil_append, List.append_nil]
    conv_lhs => unfold pyFormatGo
    rw [if_pos rfl, if_neg (by simp [hdec] : ¬ acc.reverse.all Char.isDigit = true)]
  | cons n ns ih =>
    intro acc rest h hdec
    simp only [List.all_cons, Bool.and_eq_true] at h
    obtain ⟨hn, hns⟩ := h
    simp only [plainNameChar, Bool.and_eq_true, Bool.not_eq_true',
      decide_eq_false_iff_not] at hn
    obtain ⟨⟨hn1, hn2⟩, hn3⟩ := hn
    have hacc : (n :: acc).reverse ++ ns = acc.reverse ++ n :: ns := by
      simp
    rw [List.cons_append]
    conv_lhs => unfold pyFormatGo
    rw [if_neg hn2, if_neg hn1, if_neg (by simp [hn3] : ¬ isFieldSpecial n = true)]
    rw [ih (n :: acc) rest hns (by rw [hacc]; exact hdec)]
    rw [hacc]

theorem pyFormatGo_placeholder (d : PRData) (tid : List Char)
    (nm rest : List Char) (hne : nm ≠ [])
    (h : nm.all plainNameChar = true)
    (hdec : nm.all Char.isDigit = false) :
    pyFormatGo d tid FmtMode.text (obr :: (nm ++ cbr :: rest))
      = (match lookupField nm with
        | some f =>
          (fun s => fieldVal d tid f ++ s) <$> pyFormatGo d tid FmtMode.text rest
        | none => Except.error (TemplateError.keyError nm)) := by
  cases nm with
  | nil => exact absurd rfl hne
  | cons n ns =>
    simp only [List.all_cons, Bool.and_eq_true] at h
    obtain ⟨hn, hns⟩ := h
    simp only [plainNameChar, Bool.and_eq_true, Bool.not_eq_true',
      decide_eq_false_iff_not] at hn
    obtain ⟨⟨hn1, hn2⟩, hn3⟩ := hn
    rw [List.cons_append]
    conv_lhs => unfold pyFormatGo
    rw [if_pos rfl]
    simp only []
    rw [if_neg hn1, if_neg hn2,
      if_neg (by simp [hn3] : ¬ isFieldSpecial n = true)]
    have hacc : ([n] : List Char).reverse ++ ns = n :: ns := by simp
    rw [pyFormatGo_scan d tid ns [n] rest hns (by rw [hacc]; exact hdec)]
    rw [hacc]

theorem lookupField_fieldKey (f : FieldName) : lookupField (fieldKey f) = some f := by
  cases f <;> decide

theorem fieldKey_plain (f : FieldName) :
    fieldKey f ≠ [] ∧ (fieldKey f).all plainNameChar = true := by
  cases f <;> exact ⟨by decide, by decide⟩

theorem fieldKey_not_decimal (f : FieldName) :
    (fieldKey f).all Char.isDigit = false := by
  cases f <;> decide

theorem pyFormatGo_chunks (d : PRData) (tid : List Char) :
    ∀ chunks : List TemplateChunk, (∀ ch ∈ chunks, chunkBraceFree ch = true) →
      pyFormatGo d tid FmtMode.text (renderTemplate chunks)
        = Except.ok (renderResult d tid chunks) := by
  intro chunks
  induction chunks with
  | nil => intro _; rfl
  | cons ch chs ih =>
    intro h
    have hch := h ch (List.mem_cons_self ch chs)
    have hchs := ih (fun x hx => h x (List.mem_cons_of_mem ch hx))
    cases ch with
    | lit s =>
      have hstep : renderTemplate (TemplateChunk.lit s :: chs)
          = s ++ renderTemplate chs := by
        simp [renderTemplate, chunkText]
      have hres : renderResult d tid (TemplateChunk.lit s :: chs)
          = s ++ renderResult d tid chs := by
        simp [renderResult, chunkVal]
      rw [hstep, pyFormatGo_lit d tid s _ hch, hchs, hres]
      rfl
    | ph f =>
      have hstep : renderTemplate (TemplateChunk.ph f :: chs)
          = obr :: (fieldKey f ++ cbr :: renderTemplate chs) := by
        simp [renderTemplate, chunkText]
      have hres : renderResult d tid (TemplateChunk.ph f :: chs)
          = fieldVal d tid f ++ renderResult d tid chs := by
        simp [renderResult, chunkVal]
      obtain ⟨hne, hplain⟩ := fieldKey_plain f
      rw [hstep, pyFormatGo_placeholder d tid (fieldKey f) _ hne hplain
        (fieldKey_not_decimal f), lookupField_fieldKey f, hchs, hres]
      rfl

theorem pyFormatGo_chunks_append (d : PRData) (tid : List Char) :
    ∀ chunks : List TemplateChunk, (∀ ch ∈ chunks, chunkBraceFree ch = true) →
      ∀ rest : List Char,
      pyFormatGo d tid FmtMode.text (renderTemplate chunks ++ rest)
        = (fun r => renderResult d tid chunks ++ r)
            <$> pyFormatGo d tid FmtMode.text rest := by
  intro chunks
  induction chunks with
  | nil =>
    intro _ rest
    rw [show renderTemplate [] = ([] : List Char) from rfl, List.nil_append,
      show renderResult d tid [] = ([] : List Char) from rfl]
    cases pyFormatGo d tid FmtMode.text rest <;> rfl
  | cons ch chs ih =>
    intro h rest
    have hch := h ch (List.mem_cons_self ch chs)
    have ihr := ih (fun x hx => h x (List.mem_cons_of_mem ch hx))
    cases ch with
    | lit s =>
      have hstep : renderTemplate (TemplateChunk.lit s :: chs) ++ rest
          = s ++ (renderTemplate chs ++ rest) := by
        simp [renderTemplate, chunkText]
      have hres : renderResult d tid (TemplateChunk.lit s :: chs)
          = s ++ renderResult d tid chs := by
        simp [renderResult, chunkVal]
      rw [hstep, pyFormatGo_lit d tid s _ hch, ihr rest, hres]
      cases pyFormatGo d tid FmtMode.text rest <;> simp
    | ph f =>
      have hstep : renderTemplate (TemplateChunk.ph f :: chs) ++ rest
          = obr :: (fieldKey f ++ cbr :: (renderTemplate chs ++ rest)) := by
        simp [renderTemplate, chunkText]
      have hres : renderResult d tid (TemplateChunk.ph f :: chs)
          = fieldVal d tid f ++ renderResult d tid chs := by
        simp [renderResult, chunkVal]
      obtain ⟨hne, hplain⟩ := fieldKey_plain f
      rw [hstep, pyFormatGo_placeholder d tid (fieldKey f) _ hne hplain
        (fieldKey_not_decimal f), lookupField_fieldKey f, ihr rest, hres]
      cases pyFormatGo d tid FmtMode.text rest <;> simp

/-- C7: a template assembled from brace-free literal text and the seven
recognised placeholders, each appearing exactly once, formats to the
template with each placeholder replaced by its value and all other text
unchanged; and a template with no placeholder (and no brace) is returned
unchanged. -/
theorem c7_build_prompt_substitutes (d : PRData) (tid : List Char)
    (chunks : List TemplateChunk)
    (hlits : ∀ ch ∈ chunks, chunkBraceFree ch = true)
    (honce : (chunks.filterMap chunkField).Perm
      [FieldName.ticket_id, FieldName.pr_title, FieldName.pr_url,
       FieldName.source_branch, FieldName.target_branch,
       FieldName.pr_description, FieldName.diff]) :
    build_prompt d tid (renderTemplate chunks)
        = Except.ok (renderResult d tid chunks)
      ∧ ∀ s : List Char, braceFree s = true → build_prompt d tid s = Except.ok s := by
  constructor
  · exact pyFormatGo_chunks d tid chunks hlits
  · intro s hs
    unfold build_prompt
    have h := pyFormatGo_lit d tid s [] hs
    rw [List.append_nil] at h
    rw [h]
    show (fun r => s ++ r) <$> Except.ok ([] : List Char) = Except.ok s
    simp

/-- Witness for C7 on a concrete request and template holding each
placeholder once. -/
theorem c7_witness :
    build_prompt
        ⟨("Fix null check").data, ("desc").data, ("PROJ-42-fix").data,
          ("main").data, ("diff text").data, none⟩
        ("PROJ-42").data
        (renderTemplate
          [TemplateChunk.lit ("Review ").data, TemplateChunk.ph FieldName.ticket_id,
           TemplateChunk.lit (": ").data, TemplateChunk.ph FieldName.pr_title,
           TemplateChunk.lit (" url=").data, TemplateChunk.ph FieldName.pr_url,
           TemplateChunk.lit (" ").data, TemplateChunk.ph FieldName.source_branch,
           TemplateChunk.lit (" to ").data, TemplateChunk.ph FieldName.target_branch,
           TemplateChunk.lit ("\n").data, TemplateChunk.ph FieldName.pr_description,
           TemplateChunk.lit ("\n").data, TemplateChunk.ph FieldName.diff])
      = Except.ok (renderResult
          ⟨("Fix null check").data, ("desc").data, ("PROJ-42-fix").data,
            ("main").data, ("diff text").data, none⟩
          ("PROJ-42").data
          [TemplateChunk.lit ("Review ").data, TemplateChunk.ph FieldName.ticket_id,
           TemplateChunk.lit (": ").data, TemplateChunk.ph FieldName.pr_title,
           TemplateChunk.lit (" url=").data, TemplateChunk.ph FieldName.pr_url,
           TemplateChunk.lit (" ").data, TemplateChunk.ph FieldName.source_branch,
           TemplateChunk.lit (" to ").data, TemplateChunk.ph FieldName.target_branch,
           TemplateChunk.lit ("\n").data, TemplateChunk.ph FieldName.pr_description,
           TemplateChunk.lit ("\n").data, TemplateChunk.ph FieldName.diff])
      ∧ build_prompt
          ⟨("Fix null check").data, ("desc").data, ("PROJ-42-fix").data,
            ("main").data, ("diff text").data, none⟩
          ("PROJ-42").data ("no placeholders here").data
        = Except.ok ("no placeholders here").data := by
  have h := c7_build_prompt_substitutes
    ⟨("Fix null check").data, ("desc").data, ("PROJ-42-fix").data,
      ("main").data, ("diff text").data, none⟩
    ("PROJ-42").data
    [TemplateChunk.lit ("Review ").data, TemplateChunk.ph FieldName.ticket_id,
     TemplateChunk.lit (": ").data, TemplateChunk.ph FieldName.pr_title,
     TemplateChunk.lit (" url=").data, TemplateChunk.ph FieldName.pr_url,
     TemplateChunk.lit (" ").data, TemplateChunk.ph FieldName.source_branch,
     TemplateChunk.lit (" to ").data, TemplateChunk.ph FieldName.target_branch,
     TemplateChunk.lit ("\n").data, TemplateChunk.ph FieldName.pr_description,
     TemplateChunk.lit ("\n").data, TemplateChunk.ph FieldName.diff]
    (by intro ch hch; fin_cases hch <;> decide)
    (by decide)
  exact ⟨h.1, h.2 ("no placeholders here").data (by decide)⟩

/-- C8: a template whose prefix is built from brace-free literal text
and recognised placeholders, followed by a replacement field whose plain
keyword name (non-empty and not all decimal digits, which would be a
positional index rather than a placeholder name) is not among the seven
recognised placeholders, makes `build_prompt` fail with the key error
carrying that name — never succeeding and never failing with the stray
brace or positional index kinds. -/
theorem c8_unknown_placeholder (d : PRData) (tid : List Char)
    (pre : List TemplateChunk) (nm t1 : List Char)
    (hpre : ∀ ch ∈ pre, chunkBraceFree ch = true)
    (hne : nm ≠ [])
    (hplain : nm.all plainNameChar = true)
    (hdec : nm.all Char.isDigit = false)
    (hunknown : lookupField nm = none) :
    build_prompt d tid (renderTemplate pre ++ obr :: (nm ++ cbr :: t1))
      = Except.error (TemplateError.keyError nm) := by
  unfold build_prompt
  rw [pyFormatGo_chunks_append d tid pre hpre _,
    pyFormatGo_placeholder d tid nm t1 hne hplain hdec, hunknown]
  rfl

/-- Witness for C8: a template with a recognised placeholder before the
unknown field `bogus` fails with the key error carrying `bogus`. -/
theorem c8_witness :
    build_prompt ⟨("T").data, ("D").data, ("s").data, ("t").data,
        ("diff").data, none⟩ ("J-1").data
        (renderTemplate
            [TemplateChunk.lit ("Review ").data,
             TemplateChunk.ph FieldName.ticket_id,
             TemplateChunk.lit (": ").data]
          ++ obr :: (("bogus").data ++ cbr :: ("!").data))
      = Except.error (TemplateError.keyError ("bogus").data) :=
  c8_unknown_placeholder _ _
    [TemplateChunk.lit ("Review ").data, TemplateChunk.ph FieldName.ticket_id,
     TemplateChunk.lit (": ").data] _ _
    (by decide) (by decide) (by decide) (by decide) (by decide)

/-!
## Process-CLI engines: `generate_review` of `src/engines/claude_cli.py`
and `src/engines/openai_codex_cli.py`

The two CLI engines are effectful: they create a scratch directory,
write input files into it, spawn the external program and clean up in a
`finally`.  The embedding threads the effects explicitly: a world value
records the outcome of each effectful step (whether each file write or
the spawn raises, what the process returns, and — for the Claude engine
— how the standard library `json.loads` classifies the stdout), and the
functions fold the control flow of the source over the world, recording
whether the scratch directory of the call exists when it returns.
-/

/-- A Python exception crossing the engine try block: an `EngineError`
raised by the engine itself, or any other exception. -/
inductive PyExc
  | engineError (msg : List Char)
  | otherExc (msg : List Char)

/-- The completed process returned by `subprocess.run`. -/
structure ProcResult where
  returncode : Int
  stdout : List Char
  stderr : List Char

/-- The shape of the stripped Claude CLI stdout as seen by `json.loads`
(the standard library parser is an oracle recorded in the world): not
JSON at all, a JSON object with its `is_error` truthiness and optional
`result` string, or valid JSON that is not an object. -/
inductive JsonShape
  | notJson
  | jsonDict (is_error : Bool) (resultField : Option (List Char))
  | jsonOther

/-- The outcomes of the effectful steps of one
`ClaudeCLIEngine.generate_review` call. -/
structure ClaudeCLIWorld where
  validateOk : Bool
  validateErr : List Char
  writeDiffExc : Option PyExc
  writeMetaExc : Option PyExc
  writeTemplateExc : Option PyExc
  setupPermsExc : Option PyExc
  runExc : Option PyExc
  run : ProcResult
  json : JsonShape

/-- The outcomes of the effectful steps of one
`OpenAICodexCLIEngine.generate_review` call. -/
structure CodexCLIWorld where
  validateOk : Bool
  validateErr : List Char
  writeDiffExc : Option PyExc
  writeMetaExc : Option PyExc
  writeTemplateExc : Option PyExc
  runExc : Option PyExc
  run : ProcResult

/-- Python `a or b` over strings: the first non-empty operand. -/
def pyOr (a b : List Char) : List Char := if a = [] then b else a

/-- What one `generate_review` call produces: the returned review or the
propagated `EngineError` message, whether the call created its scratch
directory, and whether the `finally` removed it. -/
structure CLICallResult where
  result : Except (List Char) (List Char)
  scratchCreated : Bool
  scratchRemoved : Bool

/-- The scratch directory still exists after the call. -/
def CLICallResult.scratchExists (r : CLICallResult) : Bool :=
  r.scratchCreated && !r.scratchRemoved

/-- The try-block body of `ClaudeCLIEngine.generate_review`: the four
file preparation steps, the spawn, the exit code check, and the lenient
JSON envelope unwrap of the stripped stdout. -/
def claudeCLIBody (w : ClaudeCLIWorld) : Except PyExc (List Char) :=
  match w.writeDiffExc with
  | some e => Except.error e
  | none =>
  match w.writeMetaExc with
  | some e => Except.error e
  | none =>
  match w.writeTemplateExc with
  | some e => Except.error e
  | none =>
  match w.setupPermsExc with
  | some e => Except.error e
  | none =>
  match w.runExc with
  | some e => Except.error e
  | none =>
    if w.run.returncode ≠ 0 then
      Except.error (PyExc.engineError
        (("Claude CLI failed: ").data ++
          (pyOr w.run.stderr (pyOr w.run.stdout ("Unknown error").data)).take 500))
    else
      let output := pyStripList w.run.stdout
      match w.json with
      | JsonShape.jsonDict true rf =>
        Except.error (PyExc.engineError
          (("Claude error: ").data ++ rf.getD ("None").data))
      | JsonShape.jsonDict false rf => Except.ok (rf.getD output)
      | JsonShape.jsonOther => Except.ok output
      | JsonShape.notJson => Except.ok output

/-- `ClaudeCLIEngine.generate_review` over a world: validate before
creating anything, then create the scratch directory, run the body under
`except EngineError: raise` and `except Exception as e: raise
EngineError(...)`, and remove the directory in the `finally` on every
path. -/
def claude_cli_generate_review (w : ClaudeCLIWorld) : CLICallResult :=
  if !w.validateOk then
    { result := Except.error (("Invalid configuration: ").data ++ w.validateErr),
      scratchCreated := false, scratchRemoved := false }
  else
    let converted : Except (List Char) (List Char) :=
      match claudeCLIBody w with
      | Except.ok review => Except.ok review
      | Except.error (PyExc.engineError m) => Except.error m
      | Except.error (PyExc.otherExc m) =>
        Except.error (("Failed to generate review: ").data ++ m)
    { result := converted, scratchCreated := true, scratchRemoved := true }

/-- The try-block body of `OpenAICodexCLIEngine.generate_review`: the
three file preparation steps, the spawn, the exit code check, the
transcript parse of the stdout, and the emptiness check. -/
def codexCLIBody (w : CodexCLIWorld) : Except PyExc (List Char) :=
  match w.writeDiffExc with
  | some e => Except.error e
  | none =>
  match w.writeMetaExc with
  | some e => Except.error e
  | none =>
  match w.writeTemplateExc with
  | some e => Except.error e
  | none =>
  match w.runExc with
  | some e => Except.error e
  | none =>
    if w.run.returncode ≠ 0 then
      Except.error (PyExc.engineError
        (("Codex CLI failed: ").data ++
          (pyOr w.run.stderr (pyOr w.run.stdout ("Unknown error").data)).take 500))
    else
      let output := parse_codex_output w.run.stdout
      if output = [] then
        Except.error (PyExc.engineError ("Codex CLI returned empty response").data)
      else Except.ok output

/-- `OpenAICodexCLIEngine.generate_review` over a world, with the same
exception conversion and `finally` cleanup as the Claude engine. -/
def codex_cli_generate_review (w : CodexCLIWorld) : CLICallResult :=
  if !w.validateOk then
    { result := Except.error (("Invalid configuration: ").data ++ w.validateErr),
      scratchCreated := false, scratchRemoved := false }
  else
    let converted : Except (List Char) (List Char) :=
      match codexCLIBody w with
      | Except.ok review => Except.ok review
      | Except.error (PyExc.engineError m) => Except.error m
      | Except.error (PyExc.otherExc m) =>
        Except.error (("Failed to generate review: ").data ++ m)
    { result := converted, scratchCreated := true, scratchRemoved := true }

/-- C5: on every exit path of either CLI engine `generate_review` —
validation failure before the directory is created, normal return,
raised `EngineError`, or any other exception during file preparation or
invocation — the scratch directory of the call does not exist when the
call returns. -/
theorem c5_scratch_removed (wClaude : ClaudeCLIWorld) (wCodex : CodexCLIWorld) :
    (claude_cli_generate_review wClaude).scratchExists = false ∧
    (codex_cli_generate_review wCodex).scratchExists = false := by
  constructor
  · unfold claude_cli_generate_review CLICallResult.scratchExists
    split
    · rfl
    · rfl
  · unfold codex_cli_generate_review CLICallResult.scratchExists
    split
    · rfl
    · rfl

/-- C9 (amended): when the spawned process exits zero after successful
preparation, the codex (line-log) engine raises `EngineError` when the
parsed transcript is empty, and the claude (JSON-envelope) engine raises
`EngineError` when the envelope signals an error; but the claude engine
has no emptiness check and returns the unwrapped text even when it is
empty. -/
theorem c9_empty_and_error_checks (wCodex : CodexCLIWorld)
    (wClaude : ClaudeCLIWorld) (rf : Option (List Char)) :
    (wCodex.validateOk = true → wCodex.writeDiffExc = none →
      wCodex.writeMetaExc = none → wCodex.writeTemplateExc = none →
      wCodex.runExc = none → wCodex.run.returncode = 0 →
      parse_codex_output wCodex.run.stdout = [] →
      (codex_cli_generate_review wCodex).result
        = Except.error ("Codex CLI returned empty response").data) ∧
    (wClaude.validateOk = true → wClaude.writeDiffExc = none →
      wClaude.writeMetaExc = none → wClaude.writeTemplateExc = none →
      wClaude.setupPermsExc = none → wClaude.runExc = none →
      wClaude.run.returncode = 0 → wClaude.json = JsonShape.jsonDict true rf →
      (claude_cli_generate_review wClaude).result
        = Except.error (("Claude error: ").data ++ rf.getD ("None").data)) := by
  constructor
  · intro hv h1 h2 h3 h4 hrc hparse
    unfold codex_cli_generate_review
    rw [hv]
    simp only [Bool.not_true, Bool.false_eq_true, if_false]
    unfold codexCLIBody
    rw [h1, h2, h3, h4]
    simp only []
    rw [if_neg (by rw [hrc]; simp)]
    rw [hparse]
    rfl
  · intro hv h1 h2 h3 h4 h5 hrc hjson
    unfold claude_cli_generate_review
    rw [hv]
    simp only [Bool.not_true, Bool.false_eq_true, if_false]
    unfold claudeCLIBody
    rw [h1, h2, h3, h4, h5]
    simp only []
    rw [if_neg (by rw [hrc]; simp)]
    rw [hjson]

/-- Witness for the amended C9 on concrete worlds: a zero exit with an
empty parsed transcript raises the codex emptiness error, and a zero
exit with an error envelope raises the claude envelope error. -/
theorem c9_witness :
    (codex_cli_generate_review
        ⟨true, [], none, none, none, none,
          ⟨0, ("[2024-01-01T00:00:00] thinking\nhi").data, []⟩⟩).result
      = Except.error ("Codex CLI returned empty response").data ∧
    (claude_cli_generate_review
        ⟨true, [], none, none, none, none, none, ⟨0, [], []⟩,
          JsonShape.jsonDict true (some ("boom").data)⟩).result
      = Except.error (("Claude error: ").data ++
          (some ("boom").data).getD ("None").data) := by
  constructor
  · exact (c9_empty_and_error_checks
        ⟨true, [], none, none, none, none,
          ⟨0, ("[2024-01-01T00:00:00] thinking\nhi").data, []⟩⟩
        ⟨true, [], none, none, none, none, none, ⟨0, [], []⟩, JsonShape.notJson⟩
        none).1
      rfl rfl rfl rfl rfl rfl (by decide)
  · exact (c9_empty_and_error_checks
        ⟨true, [], none, none, none, none, ⟨0, [], []⟩⟩
        ⟨true, [], none, none, none, none, none, ⟨0, [], []⟩,
          JsonShape.jsonDict true (some ("boom").data)⟩
        (some ("boom").data)).2
      rfl rfl rfl rfl rfl rfl rfl rfl

/-- C9 counterexample: a Claude CLI run that exits zero with empty
stdout (no JSON) returns the empty string as a successful review, so the
claim that the engine raises on empty unwrapped text is false. -/
theorem c9_counterexample :
    (claude_cli_generate_review
        ⟨true, [], none, none, none, none, none, ⟨0, [], []⟩,
          JsonShape.notJson⟩).result
      = Except.ok [] := by
  rfl

end PRHelper
